import Mathlib

/-!
Verification of the pocket-knife concurrency toolkit.

Shallow embedding of the core modules:
  * `src/async/index.ts` - policy chain composer (`withPromisePolicyChain`,
    `withPolicies`);
  * `src/async/policies/circuitBreaker.ts` - the circuit state machine
    (`createCircuit`) and the circuit-breaker invoker;
  * `src/async/policies/*` (retry) - `retryWithBackOff`;
  * `src/async/policies/bulkhead.ts` - the bulkhead counter;
  * the sync module - `waitGroup` (`add` / `done` / `wait`);
  * `src/lifetime/index.ts` - `withManagedLifetime` (promise-caching of
    `initialiseInFlight` / `teardownInFlight`) and
    `withReinitialisingLifetime` (`teardown` reset behaviour).

Promises are embedded as settled outcomes (`Except`), JavaScript's
single-threaded cooperative concurrency as small-step transition systems
whose atomic steps are the source's synchronous (await-free) code blocks,
and `Date.now()` as an explicit `Nat` time parameter.
-/

namespace PocketKnife

/-! ## Policy chain composer (`src/async/index.ts`)

A `PromisePolicy` in the source is `(p: () => Promise<T>) => Promise<T>`:
it receives a thunk producing the (settled) result of the inner chain and
produces a result.  We embed the settled promise as a plain value of an
arbitrary result type `α`, so a policy is `(Unit → α) → α`. -/

def PromisePolicy (α : Type) : Type := (Unit → α) → α

/-- The `task => task()` identity decorator substituted by
`withPromisePolicyChain` when the decorator list is nil or empty. -/
def identityDecorator {α : Type} : PromisePolicy α := fun task => task ()

/-- Embedding of `withPromisePolicyChain` (src/async/index.ts, lines 55-73):
an empty decorator list is replaced by `[identityDecorator]`; then
`R.reduce` (a left fold) over the tail builds, starting from
`() => firstDecorator(task)`, a thunk `() => nextDecorator(acc)` per
decorator, and the final thunk is invoked. -/
def withPromisePolicyChain {α : Type} (decorators0 : List (PromisePolicy α)) :
    (Unit → α) → α :=
  let decorators :=
    if decorators0.isEmpty then [identityDecorator] else decorators0
  fun task =>
    match decorators with
    | [] => task ()
    | firstDecorator :: otherDecorators =>
      (otherDecorators.foldl
        (fun acc nextDecorator => fun _ => nextDecorator acc)
        (fun _ => firstDecorator task)) ()

/-- Embedding of `withPolicies` (src/async/index.ts, lines 47-53): builds the
chain invoker and immediately runs it on the task. -/
def withPolicies {α : Type} (decorators : List (PromisePolicy α))
    (task : Unit → α) : α :=
  withPromisePolicyChain decorators task

/-- Modelled from the spec's words (for the refinement comparison of claim
C2): the nested application `pn (() => ... p2 (() => p1 task))` with `p1`
innermost and `pn` outermost, defined by peeling the innermost policy
first. -/
def specNestedChain {α : Type} : List (PromisePolicy α) → (Unit → α) → α
  | [], task => task ()
  | p :: rest, task => specNestedChain rest (fun _ => p task)

/-- The left fold of `withPromisePolicyChain`, applied to any seed thunk,
computes exactly the nested application described by the spec. -/
lemma foldl_chain_eq {α : Type} (ps : List (PromisePolicy α)) (g : Unit → α) :
    (ps.foldl (fun acc nextDecorator => fun _ => nextDecorator acc) g) () =
      specNestedChain ps g := by
  induction ps generalizing g with
  | nil => rfl
  | cons q rest ih => exact ih (fun _ => q g)

/-- C2: for every non-empty ordered list of policies `[p1, ..., pn]` and
every operation, the invoker produced by the policy-chain composer
(`withPromisePolicyChain`) returns a result equal to the nested application
`pn (() => ... p2 (() => p1 task))`, i.e. `p1` is applied innermost and
`pn` outermost. -/
theorem policy_chain_applies_innermost_first {α : Type}
    (ps : List (PromisePolicy α)) (task : Unit → α) (h : ps ≠ []) :
    withPromisePolicyChain ps task = specNestedChain ps task := by
  cases ps with
  | nil => exact absurd rfl h
  | cons p others => exact foldl_chain_eq others (fun _ => p task)

/-- Concrete instantiation of `policy_chain_applies_innermost_first` on the
two-policy chain `[+1 innermost, *2 outermost]` over the task `3`. -/
theorem policy_chain_applies_innermost_first_witness :
    (([fun t => t () + 1, fun t => t () * 2] : List (PromisePolicy Nat)) ≠ []) ∧
      withPromisePolicyChain
          ([fun t => t () + 1, fun t => t () * 2] : List (PromisePolicy Nat))
          (fun _ => 3) =
        specNestedChain
          ([fun t => t () + 1, fun t => t () * 2] : List (PromisePolicy Nat))
          (fun _ => 3) :=
  ⟨List.cons_ne_nil _ _,
   policy_chain_applies_innermost_first _ _ (List.cons_ne_nil _ _)⟩

/-- `withPolicies` agrees with the chain composer by construction. -/
lemma withPolicies_eq_chain {α : Type} (ps : List (PromisePolicy α))
    (task : Unit → α) :
    withPolicies ps task = withPromisePolicyChain ps task := rfl

/-! ## Circuit breaker (`src/async/policies/circuitBreaker.ts`)

`createCircuit` closes over `state`, `failures`, `openedAt`; we embed the
closure state as a structure and each method as a pure state transformer.
`Date.now()` becomes an explicit `now : Nat` argument.  JavaScript's
`openedAt && ...` truthiness test (false for both `null` and `0`) is kept
verbatim in `tryReset`. -/

inductive CState
  | closed
  | open
  | halfOpen
deriving DecidableEq, Repr

structure Circuit where
  state : CState
  failures : Nat
  openedAt : Option Nat
deriving DecidableEq, Repr

/-- The closure state right after `createCircuit()`:
`state = 'closed'; failures = 0; openedAt = null`. -/
def createCircuit : Circuit := ⟨CState.closed, 0, none⟩

/-- `circuit.isValid()`: closed or half-open. -/
def Circuit.isValid (c : Circuit) : Bool :=
  c.state = CState.closed || c.state = CState.halfOpen

/-- `circuit.recordFail(failureThreshold)` at time `now` (`Date.now()`):
while not open, increment `failures`; on reaching the threshold move to
`open` and stamp `openedAt`. -/
def recordFail (failureThreshold : Nat) (now : Nat) (c : Circuit) : Circuit :=
  if c.state ≠ CState.open then
    let failures := c.failures + 1
    if failures ≥ failureThreshold then
      ⟨CState.open, failures, some now⟩
    else
      ⟨c.state, failures, c.openedAt⟩
  else c

/-- `circuit.recordSuccess()`: while not closed, move to closed and reset
`failures` to 0 (`openedAt` is left as it was). -/
def recordSuccess (c : Circuit) : Circuit :=
  if c.state ≠ CState.closed then
    ⟨CState.closed, 0, c.openedAt⟩
  else c

/-- `circuit.tryReset(gracePeriodInMs)` at time `now`: move to half-open
exactly when the circuit is open, `openedAt` is truthy (non-null and
non-zero), and `now - openedAt > gracePeriodInMs`. -/
def tryReset (gracePeriodInMs : Nat) (now : Nat) (c : Circuit) : Circuit :=
  let moveToHalfOpen : Bool :=
    c.state = CState.open &&
      match c.openedAt with
      | none => false
      | some t => t != 0 && decide (now - t > gracePeriodInMs)
  if moveToHalfOpen then ⟨CState.halfOpen, c.failures, c.openedAt⟩ else c

/-- Failure taxonomy of the circuit-breaker invoker: either the
`CircuitBreakerOpenError` built by `circuitOpen` (carrying the action name,
threshold and grace period) or a propagated underlying error. -/
inductive CBError (ε : Type)
  | openError (action : String) (failureThreshold : Nat)
      (gracePeriodInMs : Nat)
  | inner (e : ε)
deriving Repr

/-- One invocation's observable effect: the updated circuit, the settled
result, and whether the wrapped operation `func` was invoked. -/
structure CBOutcome (ε τ : Type) where
  circuit : Circuit
  result : Except (CBError ε) τ
  funcInvoked : Bool
deriving Repr

/-- `trigger` (src/async/policies/circuitBreaker.ts, lines 138-150): run the
operation (its settled outcome is `funcResult`); on error, record the
failure when `forFailure` accepts it, then return the fallback's result or
rethrow; on success record the success and return the value. -/
def trigger {ε τ : Type} (failureThreshold : Nat) (forFailure : ε → Bool)
    (now : Nat) (c : Circuit) (funcResult : Except ε τ)
    (fallback : Option (CBError ε → Except (CBError ε) τ)) :
    CBOutcome ε τ :=
  match funcResult with
  | Except.error e =>
    let c' := if forFailure e then recordFail failureThreshold now c else c
    { circuit := c'
      result :=
        match fallback with
        | some f => f (CBError.inner e)
        | none => Except.error (CBError.inner e)
      funcInvoked := true }
  | Except.ok v => { circuit := recordSuccess c, result := Except.ok v, funcInvoked := true }

/-- The invoker returned by `circuitBreaker` (lines 171-192): if the circuit
is valid, trigger; otherwise `tryReset` and, if now half-open, trigger the
single probe; otherwise reject via `circuitOpen` (fallback or
`CircuitBreakerOpenError`) without invoking the operation. -/
def cbInvoke {ε τ : Type} (gracePeriodInMs failureThreshold : Nat)
    (forFailure : ε → Bool) (action : String) (c : Circuit) (now : Nat)
    (funcResult : Except ε τ)
    (fallback : Option (CBError ε → Except (CBError ε) τ)) :
    CBOutcome ε τ :=
  if c.isValid then
    trigger failureThreshold forFailure now c funcResult fallback
  else
    let c' := tryReset gracePeriodInMs now c
    if c'.state = CState.halfOpen then
      trigger failureThreshold forFailure now c' funcResult fallback
    else
      { circuit := c'
        result :=
          match fallback with
          | some f =>
            f (CBError.openError action failureThreshold gracePeriodInMs)
          | none =>
            Except.error
              (CBError.openError action failureThreshold gracePeriodInMs)
        funcInvoked := false }

/-- A sequence of failing invocations of the breaker: each event is a pair
`(time, error)`; the wrapped operation rejects with that error at that
time, with no fallback supplied.  Returns the circuit after the sequence. -/
def failInvocations {ε : Type} (gracePeriodInMs failureThreshold : Nat)
    (forFailure : ε → Bool) (action : String) (events : List (Nat × ε))
    (c : Circuit) : Circuit :=
  events.foldl
    (fun c p =>
      (cbInvoke gracePeriodInMs failureThreshold forFailure action c p.1
        (Except.error p.2 : Except ε Unit) none).circuit)
    c

/-- On a closed circuit, an invocation whose operation rejects with a
qualifying error records the failure via `recordFail` and propagates the
error. -/
lemma cbInvoke_closed_fail {ε τ : Type} (gracePeriodInMs failureThreshold : Nat)
    (forFailure : ε → Bool) (action : String) (c : Circuit) (now : Nat)
    (e : ε) (hc : c.state = CState.closed) (hf : forFailure e = true) :
    cbInvoke gracePeriodInMs failureThreshold forFailure action c now
        (Except.error e : Except ε τ) none =
      { circuit := recordFail failureThreshold now c
        result := Except.error (CBError.inner e)
        funcInvoked := true } := by
  simp [cbInvoke, Circuit.isValid, hc, trigger, hf]

/-- Starting closed, a run of qualifying failing invocations whose count
exactly tops up the failure count to the threshold leaves the circuit
open. -/
lemma failInvocations_opens {ε : Type} (gracePeriodInMs failureThreshold : Nat)
    (forFailure : ε → Bool) (action : String) :
    ∀ (events : List (Nat × ε)) (c : Circuit),
      (∀ p ∈ events, forFailure p.2 = true) →
      c.state = CState.closed →
      c.failures + events.length = failureThreshold →
      0 < events.length →
      (failInvocations gracePeriodInMs failureThreshold forFailure action
          events c).state = CState.open := by
  intro events
  induction events with
  | nil =>
    intro c _ _ _ hlen
    exact absurd hlen (by simp)
  | cons p rest ih =>
    intro c hall hc hth _
    have hf : forFailure p.2 = true := hall p (List.mem_cons_self p rest)
    have hstep :
        failInvocations gracePeriodInMs failureThreshold forFailure action
            (p :: rest) c =
          failInvocations gracePeriodInMs failureThreshold forFailure action
            rest (recordFail failureThreshold p.1 c) := by
      simp only [failInvocations, List.foldl_cons]
      rw [cbInvoke_closed_fail gracePeriodInMs failureThreshold forFailure
        action c p.1 p.2 hc hf]
    rw [hstep]
    have hne : c.state ≠ CState.open := by rw [hc]; intro h; cases h
    by_cases hthr : c.failures + 1 ≥ failureThreshold
    · have hrest : rest.length = 0 := by
        simp only [List.length_cons] at hth
        omega
      have hrestnil : rest = [] := List.length_eq_zero.mp hrest
      have hopen : recordFail failureThreshold p.1 c =
          ⟨CState.open, c.failures + 1, some p.1⟩ := by
        simp [recordFail, hne, hthr]
      rw [hrestnil, hopen]
      rfl
    · have hclosed : recordFail failureThreshold p.1 c =
          ⟨c.state, c.failures + 1, c.openedAt⟩ := by
        simp [recordFail, hne]
        omega
      rw [hclosed]
      refine ih _ (fun q hq => hall q (List.mem_cons_of_mem p hq)) hc ?_ ?_
      · simp only [List.length_cons] at hth
        show c.failures + 1 + rest.length = failureThreshold
        omega
      · simp only [List.length_cons] at hth
        omega

/-- An invocation on an open circuit whose grace period has not yet elapsed
rejects (or falls back) without invoking the operation and leaves the
circuit unchanged. -/
lemma cbInvoke_open_within_grace {ε τ : Type}
    (gracePeriodInMs failureThreshold : Nat) (forFailure : ε → Bool)
    (action : String) (c : Circuit) (t now : Nat) (funcResult : Except ε τ)
    (fallback : Option (CBError ε → Except (CBError ε) τ))
    (hc : c.state = CState.open) (ht : c.openedAt = some t)
    (hnow : now ≤ t + gracePeriodInMs) :
    cbInvoke gracePeriodInMs failureThreshold forFailure action c now
        funcResult fallback =
      { circuit := c
        result :=
          match fallback with
          | some f =>
            f (CBError.openError action failureThreshold gracePeriodInMs)
          | none =>
            Except.error
              (CBError.openError action failureThreshold gracePeriodInMs)
        funcInvoked := false } := by
  have hvalid : c.isValid = false := by simp [Circuit.isValid, hc]
  have hgr : ¬(now - t > gracePeriodInMs) := by omega
  have hreset : tryReset gracePeriodInMs now c = c := by
    simp [tryReset, ht, hgr]
  have hnothalf : c.state ≠ CState.halfOpen := by rw [hc]; intro h; cases h
  simp only [cbInvoke, hvalid, Bool.false_eq_true, if_false, hreset]
  rw [if_neg hnothalf]

/-- C3: for every circuit breaker instance, after `failureThreshold`
qualifying failures have been recorded (here: a run of invocations whose
operations all reject with errors accepted by `forFailure`, starting from
the fresh circuit) the circuit is in the open state; and every invocation
made on an open circuit before `gracePeriodInMs` has elapsed since
`openedAt` rejects with `CircuitBreakerOpenError` (or returns the
fallback's result if a fallback is supplied) without invoking the wrapped
operation. -/
theorem circuitBreaker_opens_then_fails_fast {ε τ : Type}
    (gracePeriodInMs failureThreshold : Nat) (forFailure : ε → Bool)
    (action : String) (events : List (Nat × ε)) (c : Circuit) (t now : Nat)
    (funcResult : Except ε τ)
    (fallback : Option (CBError ε → Except (CBError ε) τ)) :
    (1 ≤ failureThreshold →
      events.length = failureThreshold →
      (∀ p ∈ events, forFailure p.2 = true) →
      (failInvocations gracePeriodInMs failureThreshold forFailure action
          events createCircuit).state = CState.open) ∧
    (c.state = CState.open →
      c.openedAt = some t →
      now ≤ t + gracePeriodInMs →
      cbInvoke gracePeriodInMs failureThreshold forFailure action c now
          funcResult fallback =
        { circuit := c
          result :=
            match fallback with
            | some f =>
              f (CBError.openError action failureThreshold gracePeriodInMs)
            | none =>
              Except.error
                (CBError.openError action failureThreshold gracePeriodInMs)
          funcInvoked := false }) := by
  constructor
  · intro h1 hlen hall
    refine failInvocations_opens gracePeriodInMs failureThreshold forFailure
      action events createCircuit hall rfl ?_ ?_
    · simpa [createCircuit] using hlen
    · omega
  · intro hc ht hnow
    exact cbInvoke_open_within_grace gracePeriodInMs failureThreshold
      forFailure action c t now funcResult fallback hc ht hnow

/-- Concrete instantiation of `circuitBreaker_opens_then_fails_fast`:
threshold 1, one qualifying failure at time 5 opens the fresh circuit; an
open circuit stamped at time 7 invoked at time 100 with a 3000ms grace
period rejects with the open error without running the operation. -/
theorem circuitBreaker_opens_then_fails_fast_witness :
    (failInvocations 3000 1 (fun _ => true) "act" [(5, "boom")]
        createCircuit).state = CState.open ∧
    cbInvoke 3000 1 (fun _ => true) "act" ⟨CState.open, 1, some 7⟩ 100
        (Except.error "boom" : Except String Unit) none =
      { circuit := ⟨CState.open, 1, some 7⟩
        result := Except.error (CBError.openError "act" 1 3000)
        funcInvoked := false } := by
  have h := circuitBreaker_opens_then_fails_fast (τ := Unit) 3000 1
    (fun _ => true) "act" [(5, "boom")] ⟨CState.open, 1, some 7⟩ 7 100
    (Except.error "boom") none
  exact ⟨h.1 (by decide) (by decide) (by intro p _; rfl),
    h.2 rfl rfl (by omega)⟩

/-- C7: for every circuit state: recording a success while the state is not
closed sets the state to closed and the failure count to 0 (leaving
`openedAt` as it was), and recording a failure while the state is already
open leaves the circuit - its failure count and `openedAt` included -
entirely unchanged. -/
theorem circuit_success_resets_and_open_fail_noop (c : Circuit)
    (failureThreshold now : Nat) :
    (c.state ≠ CState.closed →
      recordSuccess c = ⟨CState.closed, 0, c.openedAt⟩) ∧
    (c.state = CState.open → recordFail failureThreshold now c = c) := by
  constructor
  · intro h
    simp [recordSuccess, h]
  · intro h
    have : ¬c.state ≠ CState.open := by rw [h]; simp
    simp [recordFail, this]

/-- Concrete instantiation of `circuit_success_resets_and_open_fail_noop`
on the open circuit `⟨open, 4, some 9⟩` with threshold 10 at time 42. -/
theorem circuit_success_resets_and_open_fail_noop_witness :
    recordSuccess ⟨CState.open, 4, some 9⟩ = ⟨CState.closed, 0, some 9⟩ ∧
    recordFail 10 42 ⟨CState.open, 4, some 9⟩ = ⟨CState.open, 4, some 9⟩ := by
  have h := circuit_success_resets_and_open_fail_noop
    ⟨CState.open, 4, some 9⟩ 10 42
  exact ⟨h.1 (by intro hh; cases hh), h.2 rfl⟩

/-! ## Retry with backoff (`retryWithBackOff`)

The operation `func` is embedded as a map from the attempt number to that
attempt's settled outcome.  `shouldRetry.when` sees either the thrown error
or the returned value, so it is a predicate on `Except ε τ`; its source
default is `() => false`.  The `onFail` hook is modelled at its default
(`(_, __, timeout) => Promise.resolve(timeout)`), which leaves the current
timeout unchanged.  The result records the settled outcome, the list of
backoff delays actually slept (`if (timeout) await ...`), and the attempt
numbers at which `func` was invoked. -/

inductive RetryFailure (ε : Type)
  | retryError (action : String) (attempt : Nat) (innerError : Option ε)
  | raw (e : ε)
deriving Repr, DecidableEq

structure RetryResult (ε τ : Type) where
  result : Except (RetryFailure ε) τ
  delays : List Nat
  calls : List Nat
deriving Repr

/-- The inner `run(attempt, timeout)` loop of `retryWithBackOff`,
`evaluateRetry` inlined: invoke the operation; if `shouldRetry.when` holds
of the outcome, then either (attempts exhausted) throw - the raw error when
`proxyError` is set and the outcome was a thrown error, a `RetryError`
carrying the attempt count (and the error, when there was one) otherwise -
or sleep the current timeout (when non-zero), double it, and recurse with
`attempt + 1`; if `shouldRetry.when` does not hold, return the value or
rethrow the error as-is. -/
def retryRun {ε τ : Type} (retries : Nat) (whenRetry : Except ε τ → Bool)
    (action : String) (proxyError : Bool) (func : Nat → Except ε τ)
    (attempt : Nat) (timeout : Nat) : RetryResult ε τ :=
  let outcome := func attempt
  if whenRetry outcome then
    if _h : attempt ≥ retries then
      match outcome with
      | Except.error e =>
        ⟨Except.error
            (if proxyError then RetryFailure.raw e
              else RetryFailure.retryError action attempt (some e)),
          [], [attempt]⟩
      | Except.ok _ =>
        ⟨Except.error (RetryFailure.retryError action attempt none), [],
          [attempt]⟩
    else
      let rest :=
        retryRun retries whenRetry action proxyError func (attempt + 1)
          (timeout * 2)
      ⟨rest.result, (if timeout = 0 then [] else [timeout]) ++ rest.delays,
        attempt :: rest.calls⟩
  else
    match outcome with
    | Except.ok v => ⟨Except.ok v, [], [attempt]⟩
    | Except.error e => ⟨Except.error (RetryFailure.raw e), [], [attempt]⟩
termination_by retries - attempt
decreasing_by simp_wf; omega

/-- `retryWithBackOff` enters the loop at `attempt = 1` with the configured
initial delay (`delay || 0`; source defaults: `retries = 3`,
`delay = 300`). -/
def retryWithBackOff {ε τ : Type} (retries : Nat)
    (whenRetry : Except ε τ → Bool) (action : String) (proxyError : Bool)
    (func : Nat → Except ε τ) (delay : Nat) : RetryResult ε τ :=
  retryRun retries whenRetry action proxyError func 1 delay

/-- When every attempt throws the same qualifying error, the loop makes
attempts `attempt, attempt+1, ..., retries`, sleeping the current delay
before each recursion and doubling it, and finally throws the
`RetryError`. -/
lemma retryRun_all_qualifying_fail {ε τ : Type} (retries : Nat)
    (w : Except ε τ → Bool) (action : String) (func : Nat → Except ε τ)
    (e : ε) (hfe : ∀ i, func i = Except.error e)
    (hw : w (Except.error e) = true) :
    ∀ (k attempt d : Nat), retries - attempt = k → 1 ≤ attempt →
      attempt ≤ retries → 0 < d →
      retryRun retries w action false func attempt d =
        ⟨Except.error (RetryFailure.retryError action retries (some e)),
          (List.range (retries - attempt)).map (fun i => 2 ^ i * d),
          List.range' attempt (retries - attempt + 1)⟩ := by
  intro k
  induction k with
  | zero =>
    intro attempt d hk _ hle _
    have ha : attempt = retries := by omega
    subst ha
    rw [retryRun]
    simp [hfe, hw]
  | succ n ih =>
    intro attempt d hk h1 hle hd
    have hlt : attempt < retries := by omega
    rw [retryRun]
    have hrest := ih (attempt + 1) (d * 2) (by omega) (by omega) (by omega)
      (by omega)
    simp only [hfe, hw, if_true, dif_neg (by omega : ¬attempt ≥ retries),
      hrest]
    have hm : retries - attempt = (retries - (attempt + 1)) + 1 := by omega
    have hd0 : ¬d = 0 := by omega
    refine congrArg₂ (RetryResult.mk _) ?_ ?_
    · rw [if_neg hd0, hm, List.range_succ_eq_map, List.map_cons,
        List.map_map]
      refine congrArg₂ List.cons (by simp) ?_
      refine List.map_congr_left ?_
      intro i _
      show 2 ^ i * (d * 2) = 2 ^ (Nat.succ i) * d
      rw [pow_succ]
      ring
    · rw [hm]
      simp [List.range'_succ]

/-- C4 (amended): a thrown error triggers a retry only when
`shouldRetry.when(error)` is true.  First part: when every attempt throws a
qualifying error, the call makes attempts `1..retries`, sleeping the
initial delay and doubling it before each subsequent attempt.  Second
part: when `shouldRetry.when(error)` is false - in particular under the
default predicate `() => false` - a thrown error is rethrown unwrapped at
once, with no retry and no delay. -/
theorem retry_throws_retry_only_when_predicate {ε τ : Type} (retries : Nat)
    (w : Except ε τ → Bool) (action : String) (func : Nat → Except ε τ)
    (e : ε) (d attempt : Nat) :
    ((∀ i, func i = Except.error e) → w (Except.error e) = true →
      1 ≤ retries → 0 < d →
      retryWithBackOff retries w action false func d =
        ⟨Except.error (RetryFailure.retryError action retries (some e)),
          (List.range (retries - 1)).map (fun i => 2 ^ i * d),
          List.range' 1 retries⟩) ∧
    (func attempt = Except.error e → w (Except.error e) = false →
      retryRun retries w action false func attempt d =
        ⟨Except.error (RetryFailure.raw e), [], [attempt]⟩) := by
  constructor
  · intro hfe hw h1 hd
    have h := retryRun_all_qualifying_fail retries w action func e hfe hw
      (retries - 1) 1 d rfl le_rfl h1 hd
    rw [retryWithBackOff, h]
    have : retries - 1 + 1 = retries := by omega
    rw [this]
  · intro hf hw
    rw [retryRun]
    simp [hf, hw]

/-- Concrete instantiation of `retry_throws_retry_only_when_predicate`:
with a retry-on-error predicate, three attempts all throwing give the
`RetryError` after delays 300 and 600; with the default predicate the same
throw propagates raw after a single call. -/
theorem retry_throws_retry_only_when_predicate_witness :
    retryWithBackOff 3
        (fun o => match o with | Except.error _ => true | _ => false) "act"
        false (fun _ => (Except.error "boom" : Except String Nat)) 300 =
      ⟨Except.error (RetryFailure.retryError "act" 3 (some "boom")),
        [300, 600], [1, 2, 3]⟩ ∧
    retryRun 3 (fun _ => false) "act" false
        (fun _ => (Except.error "boom" : Except String Nat)) 1 300 =
      ⟨Except.error (RetryFailure.raw "boom"), [], [1]⟩ := by
  constructor
  · have h := (retry_throws_retry_only_when_predicate 3
      (fun o => match o with | Except.error _ => true | _ => false) "act"
      (fun _ => (Except.error "boom" : Except String Nat)) "boom" 300 1).1
      (fun _ => rfl) rfl (by norm_num) (by norm_num)
    rw [h]
    rfl
  · exact (retry_throws_retry_only_when_predicate 3 (fun _ => false) "act"
      (fun _ => (Except.error "boom" : Except String Nat)) "boom" 300 1).2
      rfl rfl

/-- C4 counterexample: with the default `shouldRetry` (`when: () => false`)
and `attempt = 1 < retries = 3`, a thrown error does NOT trigger a retry:
the operation is invoked exactly once (`calls = [1]`), no delay is slept,
and the raw error propagates - although a second attempt would have
succeeded with `42`. -/
theorem retry_default_predicate_no_retry_cex :
    retryWithBackOff 3 (fun _ => false) "act" false
        (fun n => if n = 1 then Except.error "boom" else Except.ok 42)
        300 =
      ⟨Except.error (RetryFailure.raw "boom"), [], [1]⟩ ∧ (1 : Nat) < 3 := by
  constructor
  · simp [retryWithBackOff, retryRun]
  · norm_num

/-- When every outcome qualifies for retry, the loop runs to the attempt
`max retries 1` and the overall result is determined by that final
attempt's outcome: a raw rethrow under `proxyError`, a `RetryError`
carrying the final attempt number (and the error, when the failure was a
thrown error) otherwise. -/
lemma retryRun_exhaustion_result {ε τ : Type} (retries : Nat)
    (w : Except ε τ → Bool) (action : String) (proxyError : Bool)
    (func : Nat → Except ε τ) (hq : ∀ i, w (func i) = true) :
    ∀ (k attempt d : Nat), max retries 1 - attempt = k → 1 ≤ attempt →
      attempt ≤ max retries 1 →
      (retryRun retries w action proxyError func attempt d).result =
        (match func (max retries 1) with
          | Except.error e =>
            Except.error
              (if proxyError then RetryFailure.raw e
                else RetryFailure.retryError action (max retries 1) (some e))
          | Except.ok _ =>
            Except.error
              (RetryFailure.retryError action (max retries 1) none)) := by
  intro k
  induction k with
  | zero =>
    intro attempt d hk h1 hle
    have ha : attempt = max retries 1 := by omega
    have hge : attempt ≥ retries := by omega
    have hw := hq attempt
    rw [retryRun, ← ha]
    cases hfa : func attempt with
    | error e =>
      rw [hfa] at hw
      simp [hfa, hw, hge]
    | ok v =>
      rw [hfa] at hw
      simp [hfa, hw, hge]
  | succ n ih =>
    intro attempt d hk h1 hle
    have hlt : attempt < max retries 1 := by omega
    have hltr : attempt < retries := by omega
    have hw := hq attempt
    rw [retryRun]
    have hrest := ih (attempt + 1) (d * 2) (by omega) (by omega) (by omega)
    cases hfa : func attempt with
    | error e =>
      rw [hfa] at hw
      simp only [hfa, hw, if_true, dif_neg (by omega : ¬attempt ≥ retries)]
      exact hrest
    | ok v =>
      rw [hfa] at hw
      simp only [hfa, hw, if_true, dif_neg (by omega : ¬attempt ≥ retries)]
      exact hrest

/-- C9 (amended): when retries are exhausted (every outcome qualifies for
retry, so the loop runs to the final attempt `max retries 1`): if
`proxyError` is false the call rejects with a `RetryError` carrying the
action name, the attempt count `max retries 1` (equal to `retries`
whenever `retries ≥ 1`), and the last underlying error when the final
failure was a thrown error; if `proxyError` is true the last underlying
error is rethrown unwrapped; a retryable final return value yields a
`RetryError` with no inner error. -/
theorem retry_exhaustion_failure_shape {ε τ : Type} (retries : Nat)
    (w : Except ε τ → Bool) (action : String) (func : Nat → Except ε τ)
    (d : Nat) (e : ε) (v : τ) (hq : ∀ i, w (func i) = true) :
    (func (max retries 1) = Except.error e →
      (retryWithBackOff retries w action false func d).result =
          Except.error
            (RetryFailure.retryError action (max retries 1) (some e)) ∧
      (retryWithBackOff retries w action true func d).result =
          Except.error (RetryFailure.raw e)) ∧
    (func (max retries 1) = Except.ok v →
      ∀ proxyError,
        (retryWithBackOff retries w action proxyError func d).result =
          Except.error (RetryFailure.retryError action (max retries 1) none)) := by
  have h1A : 1 ≤ max retries 1 := Nat.le_max_right retries 1
  constructor
  · intro hfe
    constructor
    · have h := retryRun_exhaustion_result retries w action false func hq
        (max retries 1 - 1) 1 d rfl le_rfl h1A
      rw [retryWithBackOff, h, hfe]
      simp
    · have h := retryRun_exhaustion_result retries w action true func hq
        (max retries 1 - 1) 1 d rfl le_rfl h1A
      rw [retryWithBackOff, h, hfe]
      simp
  · intro hfv proxyError
    have h := retryRun_exhaustion_result retries w action proxyError func hq
      (max retries 1 - 1) 1 d rfl le_rfl h1A
    rw [retryWithBackOff, h, hfv]


/-- Concrete instantiation of `retry_exhaustion_failure_shape`: two
attempts, all outcomes retryable.  A final thrown error yields
`RetryError "act" 2 (some "e")` (or the raw error under `proxyError`); a
final retryable return value yields `RetryError "act" 2` with no inner
error. -/
theorem retry_exhaustion_failure_shape_witness :
    ((retryWithBackOff 2 (fun _ => true) "act" false
          (fun _ => (Except.error "e" : Except String Nat)) 300).result =
        Except.error (RetryFailure.retryError "act" 2 (some "e")) ∧
      (retryWithBackOff 2 (fun _ => true) "act" true
          (fun _ => (Except.error "e" : Except String Nat)) 300).result =
        Except.error (RetryFailure.raw "e")) ∧
    (retryWithBackOff 2 (fun _ => true) "act" false
        (fun _ => (Except.ok 5 : Except String Nat)) 300).result =
      Except.error (RetryFailure.retryError "act" 2 none) := by
  constructor
  · exact (retry_exhaustion_failure_shape 2 (fun _ => true) "act"
      (fun _ => (Except.error "e" : Except String Nat)) 300 "e" 0
      (fun _ => rfl)).1 rfl
  · exact (retry_exhaustion_failure_shape 2 (fun _ => true) "act"
      (fun _ => (Except.ok 5 : Except String Nat)) 300 "e" 5
      (fun _ => rfl)).2 rfl false

/-- C9 counterexample: with `retries = 0` and a retryable thrown error, the
call rejects with a `RetryError` whose attempt count is `1`, not
`retries = 0` - the loop always starts at attempt 1. -/
theorem retry_zero_retries_attempt_cex :
    (retryWithBackOff 0 (fun _ => true) "act" false
        (fun _ => (Except.error "e" : Except String Nat)) 300).result =
      Except.error (RetryFailure.retryError "act" 1 (some "e")) ∧
    (1 : Nat) ≠ 0 := by
  constructor
  · simp [retryWithBackOff, retryRun]
  · norm_num

/-! ## Bulkhead (`src/async/policies/bulkhead.ts`)

`bulkhead` closes over `callCount` (and a queue of deferred resolvers used
only by the `kind: 'block'` branch).  We model the `kind: 'error'` branch
of `aquire` (the source's spelling), which the claim exercises: increment
`callCount`; proceed when it is within `maxConcurrency`, otherwise reject
at once with `BulkheadConcurrencyError` carrying the incremented count. -/

inductive BulkheadError
  | concurrencyError (action : String) (maxConcurrency : Nat)
      (callCount : Nat)
deriving Repr, DecidableEq

structure BulkheadState where
  callCount : Nat
deriving Repr, DecidableEq

/-- `aquire` with `onResourceLimitConsumed: {kind: 'error'}`:
`if (++callCount <= maxConcurrency) return Promise.resolve()` else reject
with `BulkheadConcurrencyError(action, maxConcurrency, callCount)`. -/
def aquire (maxConcurrency : Nat) (action : String) (s : BulkheadState) :
    BulkheadState × Option BulkheadError :=
  let callCount := s.callCount + 1
  if callCount ≤ maxConcurrency then (⟨callCount⟩, none)
  else
    (⟨callCount⟩,
      some (BulkheadError.concurrencyError action maxConcurrency callCount))

/-- `n` back-to-back acquisitions with no intervening release - the
"`n` concurrent calls" scenario.  Returns the final state and each call's
outcome in issue order (`none` = the call proceeds to its operation). -/
def aquireAll (maxConcurrency : Nat) (action : String) :
    Nat → BulkheadState → BulkheadState × List (Option BulkheadError)
  | 0, s => (s, [])
  | n + 1, s =>
    let p := aquire maxConcurrency action s
    let rest := aquireAll maxConcurrency action n p.1
    (rest.1, p.2 :: rest.2)

/-- While there is capacity, every acquisition proceeds and the counter
climbs one per call. -/
lemma aquireAll_under_capacity (maxConcurrency : Nat) (action : String) :
    ∀ (n c : Nat), c + n ≤ maxConcurrency →
      aquireAll maxConcurrency action n ⟨c⟩ =
        (⟨c + n⟩, List.replicate n none) := by
  intro n
  induction n with
  | zero => intro c _; rfl
  | succ n ih =>
    intro c hc
    have hstep : aquire maxConcurrency action ⟨c⟩ = (⟨c + 1⟩, none) := by
      simp [aquire]
      omega
    show (let p := aquire maxConcurrency action ⟨c⟩;
      let rest := aquireAll maxConcurrency action n p.1
      (rest.1, p.2 :: rest.2)) = _
    rw [hstep]
    show ((aquireAll maxConcurrency action n ⟨c + 1⟩).1,
        none :: (aquireAll maxConcurrency action n ⟨c + 1⟩).2) = _
    rw [ih (c + 1) (by omega)]
    have harith : c + 1 + n = c + (n + 1) := by omega
    rw [harith]
    rfl

/-- Acquisition sequences compose: `n + m` acquisitions are the first `n`
followed by `m` more from the resulting state. -/
lemma aquireAll_add (maxConcurrency : Nat) (action : String) :
    ∀ (n m : Nat) (s : BulkheadState),
      aquireAll maxConcurrency action (n + m) s =
        ((aquireAll maxConcurrency action m
            (aquireAll maxConcurrency action n s).1).1,
          (aquireAll maxConcurrency action n s).2 ++
            (aquireAll maxConcurrency action m
              (aquireAll maxConcurrency action n s).1).2) := by
  intro n
  induction n with
  | zero => intro m s; rw [Nat.zero_add]; rfl
  | succ n ih =>
    intro m s
    have h : n + 1 + m = (n + m) + 1 := by omega
    rw [h]
    simp only [aquireAll]
    rw [ih]
    simp

/-- C6: for every bulkhead with configured `maxConcurrency`, issuing
`maxConcurrency + 1` concurrent calls with
`onResourceLimitConsumed: {kind: 'error'}` (no release in between) lets
the first `maxConcurrency` calls all proceed to their operations, while
the `(maxConcurrency + 1)`-th call rejects immediately with
`BulkheadConcurrencyError` carrying the bulkhead's limit and the call
count `maxConcurrency + 1`. -/
theorem bulkhead_error_kind_rejects_excess (maxConcurrency : Nat)
    (action : String) :
    aquireAll maxConcurrency action (maxConcurrency + 1) ⟨0⟩ =
      (⟨maxConcurrency + 1⟩,
        List.replicate maxConcurrency none ++
          [some (BulkheadError.concurrencyError action maxConcurrency
            (maxConcurrency + 1))]) := by
  rw [aquireAll_add maxConcurrency action maxConcurrency 1 ⟨0⟩,
    aquireAll_under_capacity maxConcurrency action maxConcurrency 0
      (by omega)]
  have h1 : aquireAll maxConcurrency action 1 ⟨0 + maxConcurrency⟩ =
      (⟨maxConcurrency + 1⟩,
        [some (BulkheadError.concurrencyError action maxConcurrency
          (maxConcurrency + 1))]) := by
    simp only [aquireAll, aquire]
    rw [if_neg (by omega)]
    simp
  rw [h1]

/-! ## WaitGroup (sync module)

`waitGroup()` closes over an array `awaitables` of `{promise, resolve}`
pairs.  We give each promise an identity (a fresh `Nat`): the state holds
the ids of the outstanding awaitables in registration order, the ids whose
promises have been resolved, and the next fresh id.  `wait` calls
`timeout(waitFnc, ...)`, which invokes `waitFnc` synchronously, so
`R.map(({promise}) => promise, awaitables)` snapshots the array as it is
when `wait` is called; the `Promise.all` of that snapshot resolves exactly
when every snapshotted id has been resolved by `done()`.  (The `wait`
timeout race is not involved in the claim and is not modelled.) -/

structure WGState where
  awaitables : List Nat
  resolvedIds : List Nat
  nextId : Nat
deriving Repr, DecidableEq

/-- `add(count)`: push `count` fresh promise/resolver pairs. -/
def wgAdd (count : Nat) (s : WGState) : WGState :=
  ⟨s.awaitables ++ List.range' s.nextId count, s.resolvedIds,
    s.nextId + count⟩

/-- `done()`: with no outstanding awaitables, a no-op; otherwise
`splice(0, 1)` removes the oldest awaitable and resolves its promise. -/
def wgDone (s : WGState) : WGState :=
  match s.awaitables with
  | [] => s
  | a :: rest => ⟨rest, a :: s.resolvedIds, s.nextId⟩

/-- The promises captured by `wait()`'s `Promise.all` - the awaitables
array at the moment `wait` is called. -/
def waitSnapshot (s : WGState) : List Nat :=
  s.awaitables

/-- Whether the `Promise.all` over a snapshot has resolved in state `s`:
every snapshotted promise id has been resolved. -/
def snapshotResolved (snap : List Nat) (s : WGState) : Bool :=
  snap.all (fun id => decide (id ∈ s.resolvedIds))

inductive WGOp
  | add (count : Nat)
  | done
deriving Repr, DecidableEq

def applyOp (s : WGState) : WGOp → WGState
  | WGOp.add count => wgAdd count s
  | WGOp.done => wgDone s

def applyOps (s : WGState) (ops : List WGOp) : WGState :=
  ops.foldl applyOp s

def countDone (ops : List WGOp) : Nat :=
  ops.countP fun op => match op with | WGOp.done => true | _ => false

/-- Resolved promises stay resolved under any further operations. -/
lemma resolved_mono : ∀ (ops : List WGOp) (s : WGState) (x : Nat),
    x ∈ s.resolvedIds → x ∈ (applyOps s ops).resolvedIds := by
  intro ops
  induction ops with
  | nil => intro s x hx; exact hx
  | cons op rest ih =>
    intro s x hx
    cases op with
    | add n => exact ih _ x hx
    | done =>
      refine ih _ x ?_
      cases s with
      | mk aw res nid =>
        cases aw with
        | nil => exact hx
        | cons a t => exact List.mem_cons_of_mem a hx

/-- `done()` resolves the oldest outstanding registration, so a prefix
`pre` of the awaitables array is entirely resolved once at least
`pre.length` `done` operations have run, regardless of interleaved
`add`s. -/
lemma done_resolves_prefix : ∀ (ops : List WGOp) (pre extra res : List Nat)
    (nid : Nat), pre.length ≤ countDone ops →
    ∀ id ∈ pre, id ∈ (applyOps ⟨pre ++ extra, res, nid⟩ ops).resolvedIds := by
  intro ops
  induction ops with
  | nil =>
    intro pre extra res nid h id hid
    have h0 : countDone ([] : List WGOp) = 0 := rfl
    have hz : pre.length = 0 := by omega
    rw [List.length_eq_zero] at hz
    subst hz
    cases hid
  | cons op rest ih =>
    intro pre extra res nid h id hid
    cases op with
    | add n =>
      have hcount : pre.length ≤ countDone rest := by
        simp [countDone, List.countP_cons] at h ⊢
        omega
      have hstate :
          applyOps ⟨pre ++ extra, res, nid⟩ (WGOp.add n :: rest) =
            applyOps ⟨pre ++ (extra ++ List.range' nid n), res, nid + n⟩
              rest := by
        show applyOps (wgAdd n ⟨pre ++ extra, res, nid⟩) rest = _
        rw [wgAdd]
        rw [List.append_assoc]
      rw [hstate]
      exact ih pre (extra ++ List.range' nid n) res (nid + n) hcount id hid
    | done =>
      cases pre with
      | nil => cases hid
      | cons a pre' =>
        have hstate :
            applyOps ⟨(a :: pre') ++ extra, res, nid⟩ (WGOp.done :: rest) =
              applyOps ⟨pre' ++ extra, a :: res, nid⟩ rest := rfl
        rw [hstate]
        rcases List.mem_cons.mp hid with hida | hidp
        · subst hida
          exact resolved_mono rest _ id (List.mem_cons_self id res)
        · have hcount : pre'.length ≤ countDone rest := by
            simp [countDone, List.countP_cons] at h ⊢
            omega
          exact ih pre' extra (a :: res) nid hcount id hidp

/-- C5 (amended): `wait()` observes the awaitables registered at the time
of the call; once at least that many `done()` operations have run -
regardless of interleaved `add`s - every snapshotted unit is resolved and
`wait`'s `Promise.all` resolves.  (Units added after `wait` begins are not
part of the snapshot and are not awaited; see the counterexample.) -/
theorem waitGroup_wait_resolves_snapshot (s : WGState) (ops : List WGOp)
    (h : s.awaitables.length ≤ countDone ops) :
    snapshotResolved (waitSnapshot s) (applyOps s ops) = true := by
  rw [snapshotResolved, List.all_eq_true]
  intro id hid
  have hmem : id ∈ (applyOps s ops).resolvedIds := by
    have hs : s = ⟨s.awaitables ++ [], s.resolvedIds, s.nextId⟩ := by
      cases s with
      | mk aw res nid => simp
    rw [hs]
    exact done_resolves_prefix ops s.awaitables [] s.resolvedIds s.nextId h
      id hid
  rw [decide_eq_true_eq]
  exact hmem

/-- Concrete instantiation of `waitGroup_wait_resolves_snapshot`: two units
outstanding when `wait` is called, then one `add` and two `done`s - the
snapshot is fully resolved. -/
theorem waitGroup_wait_resolves_snapshot_witness :
    (wgAdd 2 ⟨[], [], 0⟩).awaitables.length ≤
        countDone [WGOp.add 1, WGOp.done, WGOp.done] ∧
    snapshotResolved (waitSnapshot (wgAdd 2 ⟨[], [], 0⟩))
        (applyOps (wgAdd 2 ⟨[], [], 0⟩)
          [WGOp.add 1, WGOp.done, WGOp.done]) = true :=
  ⟨by decide,
    waitGroup_wait_resolves_snapshot (wgAdd 2 ⟨[], [], 0⟩)
      [WGOp.add 1, WGOp.done, WGOp.done] (by decide)⟩

/-- C5 counterexample: with two units outstanding, `wait()` begins (its
snapshot is `[0, 1]`); a third unit (id 2) is then added and only the two
original units call `done()`.  The snapshot's `Promise.all` is resolved -
`wait()` resolves - while the newly added unit is still outstanding and
has never called `done()`. -/
theorem waitGroup_wait_ignores_later_adds_cex :
    snapshotResolved (waitSnapshot (wgAdd 2 ⟨[], [], 0⟩))
        (applyOps (wgAdd 2 ⟨[], [], 0⟩)
          [WGOp.add 1, WGOp.done, WGOp.done]) = true ∧
    (applyOps (wgAdd 2 ⟨[], [], 0⟩)
        [WGOp.add 1, WGOp.done, WGOp.done]).awaitables = [2] ∧
    (2 : Nat) ∉ (applyOps (wgAdd 2 ⟨[], [], 0⟩)
        [WGOp.add 1, WGOp.done, WGOp.done]).resolvedIds := by
  decide

/-! ## Managed lifetime (`src/lifetime/index.ts`), sequential semantics

`withManagedLifetime` closes over `initialiseInFlight` and
`teardownInFlight` (cached promises) plus the wrapped `setup`/`destroy`
actions.  For the claims about promise caching we use a big-step
sequential semantics: each lifetime call runs to settlement before the
next begins.  Promises get identities (fresh `Nat`s); a call returns the
id of the promise it handed back, and the state counts how many times
`setup`/`destroy` actually ran. -/

structure LifeState where
  initialiseInFlight : Option Nat
  teardownInFlight : Option Nat
  setupCount : Nat
  destroyCount : Nat
  nextPromiseId : Nat
deriving Repr, DecidableEq

namespace ManagedLifetime

/-- `lifetime.teardown()` (lines 157-164) with `wrappedDestroy`
(lines 107-143) run to settlement: return the cached `teardownInFlight`
promise if one exists; otherwise store a fresh promise and run the body -
`destroy` executes (failures are swallowed, but `catch` clears
`teardownInFlight`), and `finally` clears `initialiseInFlight`. -/
def teardown (destroySucceeds : Bool) (s : LifeState) : LifeState × Nat :=
  match s.teardownInFlight with
  | some p => (s, p)
  | none =>
    let p := s.nextPromiseId
    ({ initialiseInFlight := none
       teardownInFlight := if destroySucceeds then some p else none
       setupCount := s.setupCount
       destroyCount := s.destroyCount + 1
       nextPromiseId := s.nextPromiseId + 1 }, p)

/-- `lifetime.init()` (lines 146-156) / `initInternal` (lines 167-175) with
`wrappedSetup` (lines 64-105) run to settlement: return the cached
`initialiseInFlight` promise if one exists; otherwise store a fresh
promise and run the body - `setup` executes, `catch` clears
`initialiseInFlight` and rethrows, `finally` clears `teardownInFlight`.
(`initInternal` differs from `init` only in skipping the drain wait, which
touches neither cached promise.) -/
def init (setupSucceeds : Bool) (s : LifeState) : LifeState × Nat :=
  match s.initialiseInFlight with
  | some p => (s, p)
  | none =>
    let p := s.nextPromiseId
    ({ initialiseInFlight := if setupSucceeds then some p else none
       teardownInFlight := none
       setupCount := s.setupCount + 1
       destroyCount := s.destroyCount
       nextPromiseId := s.nextPromiseId + 1 }, p)

end ManagedLifetime

/-- C10: (a) with a stored teardown promise `p` (as left by a teardown
whose destroy succeeded), every subsequent `teardown()` returns the same
`p` and leaves the state - the destroy count included - unchanged; (b) a
fresh teardown whose destroy succeeds stores its settled promise (and runs
destroy once, clearing `initialiseInFlight`); (c) a fresh teardown whose
destroy throws clears the stored promise immediately; (d) the next actual
run of setup (via `init()` or a guarded call's `initInternal`) clears the
stored teardown promise, whether setup succeeds or fails. -/
theorem teardown_promise_cached_until_setup (s : LifeState) (p : Nat)
    (b ok : Bool) :
    (s.teardownInFlight = some p → ManagedLifetime.teardown b s = (s, p)) ∧
    (s.teardownInFlight = none →
      ManagedLifetime.teardown true s =
        ({ initialiseInFlight := none
           teardownInFlight := some s.nextPromiseId
           setupCount := s.setupCount
           destroyCount := s.destroyCount + 1
           nextPromiseId := s.nextPromiseId + 1 }, s.nextPromiseId)) ∧
    (s.teardownInFlight = none →
      ManagedLifetime.teardown false s =
        ({ initialiseInFlight := none
           teardownInFlight := none
           setupCount := s.setupCount
           destroyCount := s.destroyCount + 1
           nextPromiseId := s.nextPromiseId + 1 }, s.nextPromiseId)) ∧
    (s.initialiseInFlight = none →
      (ManagedLifetime.init ok s).1.teardownInFlight = none) := by
  refine ⟨?_, ?_, ?_, ?_⟩
  · intro h
    rw [ManagedLifetime.teardown, h]
  · intro h
    rw [ManagedLifetime.teardown, h]
    rfl
  · intro h
    rw [ManagedLifetime.teardown, h]
    rfl
  · intro h
    rw [ManagedLifetime.init, h]

/-- Concrete instantiation of `teardown_promise_cached_until_setup` at the
state left by a successful teardown (`teardownInFlight = some 5`) and at a
fresh state. -/
theorem teardown_promise_cached_until_setup_witness :
    ManagedLifetime.teardown true ⟨none, some 5, 1, 1, 6⟩ =
        (⟨none, some 5, 1, 1, 6⟩, 5) ∧
    ManagedLifetime.teardown true ⟨some 0, none, 1, 0, 1⟩ =
        (⟨none, some 1, 1, 1, 2⟩, 1) ∧
    ManagedLifetime.teardown false ⟨some 0, none, 1, 0, 1⟩ =
        (⟨none, none, 1, 1, 2⟩, 1) ∧
    (ManagedLifetime.init true ⟨none, some 5, 1, 1, 6⟩).1.teardownInFlight =
        none :=
  ⟨(teardown_promise_cached_until_setup ⟨none, some 5, 1, 1, 6⟩ 5 true
      true).1 rfl,
   (teardown_promise_cached_until_setup ⟨some 0, none, 1, 0, 1⟩ 0 true
      true).2.1 rfl,
   (teardown_promise_cached_until_setup ⟨some 0, none, 1, 0, 1⟩ 0 false
      true).2.2.1 rfl,
   (teardown_promise_cached_until_setup ⟨none, some 5, 1, 1, 6⟩ 5 true
      true).2.2.2 rfl⟩

/-! ## Reinitialising lifetime (`withReinitialisingLifetime`)

The decorator closes over `requestCount`, `requestInFlightCount` and an
idle `timer` handle.  Its `teardown` (lines 400-406) delegates to the
underlying teardown and, in a `finally`, calls `resetRequestCount()`
(which sets `requestCount = 0` only, lines 289-291) and `killTimeout()`.
The underlying outcome is passed through unchanged by `.finally`. -/

structure RState where
  requestCount : Nat
  requestInFlightCount : Nat
  timerArmed : Bool
deriving Repr, DecidableEq

/-- `resetRequestCount()`: `requestCount = 0`. -/
def resetRequestCount (s : RState) : RState :=
  { s with requestCount := 0 }

/-- `killTimeout()`: clear and null the idle timer. -/
def killTimeout (s : RState) : RState :=
  { s with timerArmed := false }

/-- The reinitialising layer's `teardown`, run to settlement:
`decorated.teardown(options).finally(() => { resetRequestCount();
killTimeout(); })`.  `underlyingOutcome` is the settled outcome of the
underlying teardown; `.finally` passes it through. -/
def reinitTeardown (s : RState) (underlyingOutcome : Except Unit Unit) :
    RState × Except Unit Unit :=
  (killTimeout (resetRequestCount s), underlyingOutcome)

/-- C8 (amended): after the reinitialising layer's `teardown()` settles,
`requestCount` is 0 and the idle timer is disarmed, in every outcome of
the underlying teardown - but `requestInFlightCount` is left exactly as it
was (it is maintained only by `onProcessing`/`onProcessed`), and the
underlying outcome is passed through. -/
theorem reinit_teardown_resets_requestCount_and_timer (s : RState)
    (outcome : Except Unit Unit) :
    (reinitTeardown s outcome).1.requestCount = 0 ∧
    (reinitTeardown s outcome).1.timerArmed = false ∧
    (reinitTeardown s outcome).1.requestInFlightCount =
      s.requestInFlightCount ∧
    (reinitTeardown s outcome).2 = outcome :=
  ⟨rfl, rfl, rfl, rfl⟩

/-- C8 counterexample: with one request in flight (`requestInFlightCount =
1`), a settled teardown (underlying success) leaves
`requestInFlightCount = 1`, not 0 - only `requestCount` is reset. -/
theorem reinit_teardown_inflight_not_reset_cex :
    (reinitTeardown ⟨3, 1, true⟩ (Except.ok ())).1.requestInFlightCount =
        1 ∧
    (1 : Nat) ≠ 0 ∧
    (reinitTeardown ⟨3, 1, true⟩ (Except.error ())).1.requestInFlightCount =
        1 := by
  refine ⟨rfl, by norm_num, rfl⟩

/-! ## Managed lifetime: concurrent guarded calls (claim C1)

Small-step interleaving model of N concurrent guarded calls issued before
`init()` (JavaScript's single-threaded event loop: atomic steps are the
synchronous blocks between awaits, interleaved in any order).  Each guarded
call (src/lifetime/index.ts, lines 200-226) awaits any in-flight lifetime
operation, then runs `initInternal` (lines 167-175) - an atomic, await-free
check-and-set of `initialiseInFlight` that starts `wrappedSetup` at most
once - then awaits the cached setup promise, and only then invokes the
underlying method.  The model covers the claim's scenario of a setup that
completes successfully (a failing setup rejects the waiting callers, which
therefore never run their methods, and resets the cache).

Task phases: `start` (not yet reached `initInternal`), `waiting` (after
its atomic `initInternal`, awaiting the setup promise), `finished` (setup
promise observed resolved, underlying method invoked). -/

inductive Phase
  | start
  | waiting
  | finished
deriving Repr, DecidableEq

structure MLConc where
  tasks : List Phase
  initStarted : Bool
  setupDone : Bool
  setupCount : Nat
deriving Repr, DecidableEq

/-- One atomic step of the event loop:
`callInit i` - task `i` executes `initInternal`: if `initialiseInFlight`
is null it is set and `setup` starts (incrementing the invocation count),
otherwise the cached promise is reused; the task then awaits that promise.
`setupComplete` - the single in-flight `setup()` finishes and its promise
resolves.  `runMethod i` - task `i`, whose awaited setup promise has
resolved, invokes the underlying method. -/
inductive MLStep : MLConc → MLConc → Prop
  | callInit (s : MLConc) (i : Nat) (h : s.tasks[i]? = some Phase.start) :
      MLStep s
        ⟨s.tasks.set i Phase.waiting, true, s.setupDone,
          if s.initStarted then s.setupCount else s.setupCount + 1⟩
  | setupComplete (s : MLConc) (h1 : s.initStarted = true)
      (h2 : s.setupDone = false) :
      MLStep s ⟨s.tasks, s.initStarted, true, s.setupCount⟩
  | runMethod (s : MLConc) (i : Nat)
      (h1 : s.tasks[i]? = some Phase.waiting) (h2 : s.setupDone = true) :
      MLStep s
        ⟨s.tasks.set i Phase.finished, s.initStarted, s.setupDone,
          s.setupCount⟩

/-- N guarded calls issued, none yet past `initInternal`, no `init()`
called: `initialiseInFlight` null, no setup run. -/
def MLStart (n : Nat) : MLConc :=
  ⟨List.replicate n Phase.start, false, false, 0⟩

def MLReachable (n : Nat) (s : MLConc) : Prop :=
  Relation.ReflTransGen MLStep (MLStart n) s

/-- Inductive invariant: the setup count tracks the `initialiseInFlight`
cache (so it never exceeds 1); the setup promise resolves only after setup
started; any task past `start` has been through `initInternal` (so the
cache is set); any finished task saw the setup promise resolved. -/
def MLInv (s : MLConc) : Prop :=
  s.setupCount = (if s.initStarted then 1 else 0) ∧
  (s.setupDone = true → s.initStarted = true) ∧
  (∀ (i : Nat) (p : Phase), s.tasks[i]? = some p → p ≠ Phase.start →
    s.initStarted = true) ∧
  (∀ (i : Nat), s.tasks[i]? = some Phase.finished → s.setupDone = true)

/-- Positions that hold a value lie within the list. -/
lemma lt_length_of_getElem? {l : List Phase} {i : Nat} {p : Phase}
    (h : l[i]? = some p) : i < l.length := by
  by_contra hge
  rw [List.getElem?_eq_none (by omega)] at h
  cases h

/-- In `MLStart n` every held position holds `Phase.start`. -/
lemma MLStart_tasks_eq {n i : Nat} {p : Phase}
    (h : (MLStart n).tasks[i]? = some p) : p = Phase.start := by
  have hrep : (MLStart n).tasks = List.replicate n Phase.start := rfl
  rw [hrep, List.getElem?_replicate] at h
  by_cases hlt : i < n
  · rw [if_pos hlt] at h
    exact (Option.some_injective _ h).symm
  · rw [if_neg hlt] at h
    cases h

lemma MLInv_start (n : Nat) : MLInv (MLStart n) := by
  refine ⟨rfl, fun h => h, ?_, ?_⟩
  · intro i p hip hps
    exact absurd (MLStart_tasks_eq hip) hps
  · intro i hip
    cases MLStart_tasks_eq hip

lemma MLInv_step {s t : MLConc} (hstep : MLStep s t) (hinv : MLInv s) :
    MLInv t := by
  obtain ⟨h1, h2, h3, h4⟩ := hinv
  cases hstep with
  | callInit i h =>
    have hlen : i < s.tasks.length := lt_length_of_getElem? h
    refine ⟨?_, fun _ => rfl, fun _ _ _ _ => rfl, ?_⟩
    · by_cases his : s.initStarted
      · simp only [his, if_true] at h1 ⊢
        simpa using h1
      · simp only [his, if_false] at h1 ⊢
        simp [h1]
    · intro j hj
      by_cases hij : i = j
      · subst hij
        rw [List.getElem?_set_self hlen] at hj
        cases Option.some_injective _ hj
      · rw [List.getElem?_set_ne hij] at hj
        exact h4 j hj
  | setupComplete hh1 hh2 =>
    exact ⟨h1, fun _ => hh1, h3, fun _ _ => rfl⟩
  | runMethod i hh1 hh2 =>
    have hlen : i < s.tasks.length := lt_length_of_getElem? hh1
    refine ⟨h1, h2, ?_, fun _ _ => hh2⟩
    intro j p hjp hps
    by_cases hij : i = j
    · subst hij
      exact h3 i Phase.waiting hh1 (by intro hw; cases hw)
    · rw [List.getElem?_set_ne hij] at hjp
      exact h3 j p hjp hps

lemma MLReachable_inv {n : Nat} {s : MLConc} (h : MLReachable n s) :
    MLInv s := by
  induction h with
  | refl => exact MLInv_start n
  | tail _ hbc ih => exact MLInv_step hbc ih

/-- C1: in every interleaving of N concurrent guarded calls issued before
`init()` is explicitly called (setup completing successfully), the
underlying `setup()` action runs at most once overall - exactly once as
soon as any call has passed `initInternal` - and every call that has
invoked its underlying method did so only after that single `setup()` had
completed. -/
theorem managed_lifetime_setup_exactly_once (n : Nat) (s : MLConc)
    (h : MLReachable n s) :
    s.setupCount ≤ 1 ∧
    (∀ (i : Nat), s.tasks[i]? = some Phase.finished →
      s.setupDone = true) ∧
    ((∃ (i : Nat) (p : Phase), s.tasks[i]? = some p ∧ p ≠ Phase.start) →
      s.setupCount = 1) := by
  obtain ⟨h1, h2, h3, h4⟩ := MLReachable_inv h
  refine ⟨?_, h4, ?_⟩
  · rw [h1]
    split <;> omega
  · rintro ⟨i, p, hip, hps⟩
    rw [h1, if_pos (h3 i p hip hps)]

/-- Concrete instantiation of `managed_lifetime_setup_exactly_once` on the
schedule `callInit 0; setupComplete; runMethod 0` for a single guarded
call: the final state has one setup invocation and a finished task. -/
theorem managed_lifetime_setup_exactly_once_witness :
    (⟨[Phase.finished], true, true, 1⟩ : MLConc).setupCount ≤ 1 ∧
    (∀ (i : Nat), (⟨[Phase.finished], true, true, 1⟩ : MLConc).tasks[i]? =
        some Phase.finished →
      (⟨[Phase.finished], true, true, 1⟩ : MLConc).setupDone = true) ∧
    ((∃ (i : Nat) (p : Phase),
        (⟨[Phase.finished], true, true, 1⟩ : MLConc).tasks[i]? =
          some p ∧ p ≠ Phase.start) →
      (⟨[Phase.finished], true, true, 1⟩ : MLConc).setupCount = 1) :=
  managed_lifetime_setup_exactly_once 1 ⟨[Phase.finished], true, true, 1⟩
    (Relation.ReflTransGen.head (MLStep.callInit (MLStart 1) 0 rfl)
      (Relation.ReflTransGen.head
        (MLStep.setupComplete ⟨[Phase.waiting], true, false, 1⟩ rfl rfl)
        (Relation.ReflTransGen.single
          (MLStep.runMethod ⟨[Phase.waiting], true, true, 1⟩ 0 rfl rfl))))

end PocketKnife
